import Mathlib

/-!
Verification of the window-enumeration and query layer of `window_utils.py`
(Win32WindowUtils).

The Python module is a thin ctypes wrapper over the Win32 windowing API.  We
embed it shallowly: the OS window registry becomes an explicit association
list from window handles to window records, each Win32 entry point becomes a
Lean function over that registry, and the Python functions of the module are
translated line by line on top of those entry points.  Python dictionaries
(the enumeration accumulators) are modelled as association lists with the
exact CPython insertion/overwrite semantics.  The process-name lookup is
modelled against an abstract process-side OS together with an explicit event
trace, so that handle acquisition and release can be counted.
-/

/-! ### Win32 constants (from the module header) -/

def WS_EX_LAYERED : Nat := 0x00080000

def LWA_ALPHA : Nat := 0x00000002

def WS_EX_TOOLWINDOW : Nat := 0x00000080

def GW_OWNER : Nat := 4

def PROCESS_QUERY_LIMITED : Nat := 0x1000

/-! ### The fake window registry -/

/-- One top-level window as the OS registry knows it: visibility flag,
extended style bits, owner handle (`0` = no owner) and title text.  `alpha`
is the layered-window alpha channel, mutated by
`SetLayeredWindowAttributes`. -/
structure Window where
  visible : Bool
  exStyle : Nat
  owner : Nat
  title : String
  alpha : Nat
deriving DecidableEq

/-- The OS window registry: handles paired with their window records, in OS
enumeration order. -/
abbrev Registry := List (Nat × Window)

/-- Look up the window registered at a handle (first match, as the OS
resolves a handle). -/
def findWindow (reg : Registry) (hwnd : Nat) : Option Window :=
  (reg.find? (fun p => p.1 == hwnd)).map Prod.snd

/-- `user32.IsWindowVisible`: the visibility flag, `false` for a stale
handle. -/
def IsWindowVisible (reg : Registry) (hwnd : Nat) : Bool :=
  match findWindow reg hwnd with
  | some w => w.visible
  | none => false

/-- `user32.GetWindowTextLengthW`: title length in characters, `0` for a
stale handle. -/
def GetWindowTextLengthW (reg : Registry) (hwnd : Nat) : Nat :=
  match findWindow reg hwnd with
  | some w => w.title.length
  | none => 0

/-- `user32.GetWindowTextW` into a buffer of `nMaxCount` characters: copies
at most `nMaxCount - 1` characters of the title (one slot is reserved for
the terminator); a stale handle yields empty text. -/
def GetWindowTextW (reg : Registry) (hwnd : Nat) (nMaxCount : Nat) : String :=
  match findWindow reg hwnd with
  | some w => String.mk (w.title.data.take (nMaxCount - 1))
  | none => ""

/-- `user32.GetWindowLongPtrW(hwnd, GWL_EXSTYLE)` (the module also calls the
`A` variant with the same arguments): the extended style bits, `0` for a
stale handle. -/
def GetWindowLongPtrEx (reg : Registry) (hwnd : Nat) : Nat :=
  match findWindow reg hwnd with
  | some w => w.exStyle
  | none => 0

/-- `user32.GetWindow(hwnd, GW_OWNER)`: the owner handle, `0` when there is
none or the handle is stale. -/
def GetWindowOwner (reg : Registry) (hwnd : Nat) : Nat :=
  match findWindow reg hwnd with
  | some w => w.owner
  | none => 0

/-! ### get_title_from_hwnd -/

/-- `get_title_from_hwnd`: query the required length, allocate `length + 1`
characters, fill the buffer and return its value. -/
def get_title_from_hwnd (reg : Registry) (hwnd : Nat) : String :=
  let length := GetWindowTextLengthW reg hwnd
  GetWindowTextW reg hwnd (length + 1)

/-! ### Python dict semantics for the enumeration accumulators -/

/-- `d[k] = v` on a CPython dict: overwriting an existing key keeps its
position, a new key is appended at the end. -/
def dictInsert (d : List (Nat × String)) (k : Nat) (v : String) :
    List (Nat × String) :=
  if d.any (fun p => p.1 == k) then
    d.map (fun p => if p.1 == k then (k, v) else p)
  else
    d ++ [(k, v)]

/-! ### get_all_windows -/

/-- The callback body of `get_all_windows` for one enumerated handle. -/
def enumProcAll (reg : Registry) (windows : List (Nat × String)) (hwnd : Nat) :
    List (Nat × String) :=
  if IsWindowVisible reg hwnd then
    let title := get_title_from_hwnd reg hwnd
    if title ≠ "" then dictInsert windows hwnd title else windows
  else windows

/-- `get_all_windows`: `EnumWindows` walks every registered handle in order,
the callback accumulates visible, titled windows. -/
def get_all_windows (reg : Registry) : List (Nat × String) :=
  (reg.map Prod.fst).foldl (enumProcAll reg) []

/-! ### get_all_user_windows -/

/-- The callback body of `get_all_user_windows` for one enumerated handle:
the chain of early-`return True` guards from the source. -/
def enumProcUser (reg : Registry) (windows : List (Nat × String)) (hwnd : Nat) :
    List (Nat × String) :=
  if ¬ IsWindowVisible reg hwnd then windows
  else if GetWindowLongPtrEx reg hwnd &&& WS_EX_TOOLWINDOW ≠ 0 then windows
  else if GetWindowOwner reg hwnd ≠ 0 then windows
  else
    let title := get_title_from_hwnd reg hwnd
    if title ≠ "" then dictInsert windows hwnd title else windows

/-- `get_all_user_windows`: same walk with the four-guard callback. -/
def get_all_user_windows (reg : Registry) : List (Nat × String) :=
  (reg.map Prod.fst).foldl (enumProcUser reg) []

/-! ### set_window_opacity -/

/-- `user32.SetWindowLongPtrA(hwnd, GWL_EXSTYLE, value)`: replace the
extended style bits of the window registered at `hwnd`; a stale handle
changes nothing. -/
def SetWindowLongPtrEx (reg : Registry) (hwnd : Nat) (value : Nat) : Registry :=
  reg.map (fun p => if p.1 == hwnd then (p.1, { p.2 with exStyle := value }) else p)

/-- `user32.SetLayeredWindowAttributes(hwnd, 0, alpha, LWA_ALPHA)`: set the
alpha channel of the window registered at `hwnd` (the BYTE argument keeps
the low 8 bits). -/
def SetLayeredWindowAttributes (reg : Registry) (hwnd : Nat) (alpha : Nat) :
    Registry :=
  reg.map (fun p => if p.1 == hwnd then (p.1, { p.2 with alpha := alpha % 256 }) else p)

/-- `set_window_opacity`: OR the layered bit into the extended style, then
set the alpha attribute. -/
def set_window_opacity (reg : Registry) (hwnd : Nat) (opacity : Nat) : Registry :=
  SetLayeredWindowAttributes
    (SetWindowLongPtrEx reg hwnd (GetWindowLongPtrEx reg hwnd ||| WS_EX_LAYERED))
    hwnd opacity

/-! ### The process side for get_process_name_from_hwnd -/

/-- The process-management side of the OS, abstracted: the pid owning a
window handle (`GetWindowThreadProcessId`), handle opening
(`OpenProcess`, `0` = failure) and the full image path the OS holds for an
open process handle (`none` when the query fails for OS reasons). -/
structure ProcOS where
  pidOf : Nat → Nat
  openProcess : Nat → Nat
  imagePath : Nat → Option String

/-- `kernel32.QueryFullProcessImageNameW` with a caller buffer of
`bufSize` characters: succeeds only when the path plus its terminator fits,
i.e. when the path is shorter than `bufSize`; otherwise it fails. -/
def QueryFullProcessImageNameW (os : ProcOS) (handle : Nat) (bufSize : Nat) :
    Option String :=
  match os.imagePath handle with
  | some path => if path.length < bufSize then some path else none
  | none => none

/-- Python's `s.split("\\")` on the character list of `s`: split at every
backslash, keeping empty pieces. -/
def splitBackslash : List Char → List (List Char)
  | [] => [[]]
  | c :: rest =>
    match splitBackslash rest with
    | [] => [[]]
    | s :: ss => if c = '\\' then [] :: s :: ss else (c :: s) :: ss

/-- One kernel32 call observed during a process-name lookup: the handle
returned by `OpenProcess` (`0` = failure), the outcome of the image-name
query, or a `CloseHandle`. -/
inductive KernelEvent where
  | openProcess (pid : Nat) (handle : Nat)
  | query (handle : Nat) (ok : Bool)
  | closeHandle (handle : Nat)
deriving DecidableEq

/-- `get_process_name_from_hwnd`, returning the result string together with
the trace of kernel32 calls it made: resolve the pid, open a limited-query
handle (early empty return if that fails), query the full image name into a
fixed 260-character buffer, take the piece after the last backslash on
success or empty text on failure, and close the handle on both paths. -/
def get_process_name_from_hwnd (os : ProcOS) (hwnd : Nat) :
    String × List KernelEvent :=
  let pid := os.pidOf hwnd
  let process_handle := os.openProcess pid
  if process_handle = 0 then
    ("", [KernelEvent.openProcess pid process_handle])
  else
    match QueryFullProcessImageNameW os process_handle 260 with
    | some full_path =>
        (String.mk ((splitBackslash full_path.data).getLastD []),
         [KernelEvent.openProcess pid process_handle,
          KernelEvent.query process_handle true,
          KernelEvent.closeHandle process_handle])
    | none =>
        ("",
         [KernelEvent.openProcess pid process_handle,
          KernelEvent.query process_handle false,
          KernelEvent.closeHandle process_handle])

/-- A successful handle acquisition in the trace. -/
def isAcquire : KernelEvent → Bool
  | KernelEvent.openProcess _ handle => handle != 0
  | _ => false

/-- A handle release in the trace. -/
def isRelease : KernelEvent → Bool
  | KernelEvent.closeHandle _ => true
  | _ => false

/-- Number of successful handle acquisitions in a trace. -/
def countAcquired (tr : List KernelEvent) : Nat := (tr.filter isAcquire).length

/-- Number of handle releases in a trace. -/
def countReleased (tr : List KernelEvent) : Nat := (tr.filter isRelease).length

/-! ### Helper view of the enumeration callbacks -/

/-- The value `get_all_windows`'s callback records for a handle, if any. -/
def processAll (reg : Registry) (hwnd : Nat) : Option String :=
  if IsWindowVisible reg hwnd then
    if get_title_from_hwnd reg hwnd ≠ "" then some (get_title_from_hwnd reg hwnd)
    else none
  else none

/-- The value `get_all_user_windows`'s callback records for a handle, if
any. -/
def processUser (reg : Registry) (hwnd : Nat) : Option String :=
  if ¬ IsWindowVisible reg hwnd then none
  else if GetWindowLongPtrEx reg hwnd &&& WS_EX_TOOLWINDOW ≠ 0 then none
  else if GetWindowOwner reg hwnd ≠ 0 then none
  else if get_title_from_hwnd reg hwnd ≠ "" then some (get_title_from_hwnd reg hwnd)
  else none

/-- Generic enumeration step driven by a recording function. -/
def enumStep (process : Nat → Option String) (d : List (Nat × String))
    (hwnd : Nat) : List (Nat × String) :=
  match process hwnd with
  | some t => dictInsert d hwnd t
  | none => d

/-- An accumulator is consistent with a recording function when every entry
it holds is exactly what the function records for that key. -/
def Consistent (process : Nat → Option String) (d : List (Nat × String)) : Prop :=
  ∀ q ∈ d, process q.1 = some q.2

theorem enumProcAll_eq_enumStep (reg : Registry) (d : List (Nat × String))
    (h : Nat) : enumProcAll reg d h = enumStep (processAll reg) d h := by
  unfold enumProcAll enumStep processAll
  by_cases hv : IsWindowVisible reg h
  · by_cases ht : get_title_from_hwnd reg h ≠ "" <;> simp [hv, ht]
  · simp [hv]

theorem enumProcUser_eq_enumStep (reg : Registry) (d : List (Nat × String))
    (h : Nat) : enumProcUser reg d h = enumStep (processUser reg) d h := by
  unfold enumProcUser enumStep processUser
  by_cases hv : IsWindowVisible reg h
  · by_cases hs : GetWindowLongPtrEx reg h &&& WS_EX_TOOLWINDOW ≠ 0
    · simp [hv, hs]
    · by_cases ho : GetWindowOwner reg h ≠ 0
      · simp [hv, hs, ho]
      · by_cases ht : get_title_from_hwnd reg h ≠ "" <;> simp [hv, hs, ho, ht]
  · simp [hv]

theorem get_all_windows_eq_fold (reg : Registry) :
    get_all_windows reg = (reg.map Prod.fst).foldl (enumStep (processAll reg)) [] := by
  unfold get_all_windows
  congr 1
  funext d h
  exact enumProcAll_eq_enumStep reg d h

theorem get_all_user_windows_eq_fold (reg : Registry) :
    get_all_user_windows reg
      = (reg.map Prod.fst).foldl (enumStep (processUser reg)) [] := by
  unfold get_all_user_windows
  congr 1
  funext d h
  exact enumProcUser_eq_enumStep reg d h

/-! ### Membership in the accumulated dictionary -/

theorem mem_dictInsert_iff {d : List (Nat × String)} {k : Nat} {v : String}
    (hval : ∀ q ∈ d, q.1 = k → q.2 = v) (q : Nat × String) :
    q ∈ dictInsert d k v ↔ q ∈ d ∨ q = (k, v) := by
  unfold dictInsert
  by_cases hany : d.any (fun p => p.1 == k) = true
  · have hmapAux : ∀ (l : List (Nat × String)), (∀ q ∈ l, q.1 = k → q.2 = v) →
        l.map (fun p => if p.1 == k then (k, v) else p) = l := by
      intro l
      induction l with
      | nil => intro _; rfl
      | cons a t ih =>
        intro hl
        simp only [List.map_cons]
        have ha : (if a.1 == k then (k, v) else a) = a := by
          by_cases hk : a.1 = k
          · have hv2 := hl a (List.mem_cons_self a t) hk
            rcases a with ⟨a1, a2⟩
            simp_all
          · simp [hk]
        rw [ha, ih (fun q hq hk => hl q (List.mem_cons_of_mem a hq) hk)]
    have hmap := hmapAux d hval
    have hkv : (k, v) ∈ d := by
      rcases List.any_eq_true.mp hany with ⟨p, hp, hpk⟩
      have hk : p.1 = k := by simpa using hpk
      have hv2 := hval p hp hk
      have : p = (k, v) := by
        rcases p with ⟨p1, p2⟩
        simp_all
      rwa [← this]
    simp only [hany, if_true, hmap]
    constructor
    · intro h
      exact Or.inl h
    · rintro (h | h)
      · exact h
      · rwa [h]
  · have hany' : (d.any fun p => p.1 == k) = false := Bool.eq_false_iff.mpr hany
    simp [hany']

theorem consistent_dictInsert {process : Nat → Option String}
    {d : List (Nat × String)} {k : Nat} {v : String}
    (hc : Consistent process d) (hk : process k = some v) :
    Consistent process (dictInsert d k v) := by
  intro q hq
  have hval : ∀ q ∈ d, q.1 = k → q.2 = v := by
    intro r hr hrk
    have := hc r hr
    rw [hrk, hk] at this
    exact (Option.some_inj.mp this).symm
  rcases (mem_dictInsert_iff hval q).mp hq with h | h
  · exact hc q h
  · rw [h]
    exact hk

theorem mem_foldl_enumStep (process : Nat → Option String) :
    ∀ (hs : List Nat) (d : List (Nat × String)), Consistent process d →
      ∀ p : Nat × String,
        (p ∈ hs.foldl (enumStep process) d ↔
          p ∈ d ∨ (p.1 ∈ hs ∧ process p.1 = some p.2)) := by
  intro hs
  induction hs with
  | nil =>
    intro d _ p
    simp
  | cons h t ih =>
    intro d hc p
    simp only [List.foldl_cons]
    rcases hv : process h with _ | v
    · have hstep : enumStep process d h = d := by
        unfold enumStep
        rw [hv]
      rw [hstep, ih d hc p]
      constructor
      · rintro (hd | ⟨hmem, hp⟩)
        · exact Or.inl hd
        · exact Or.inr ⟨List.mem_cons_of_mem h hmem, hp⟩
      · rintro (hd | ⟨hmem, hp⟩)
        · exact Or.inl hd
        · rcases List.mem_cons.mp hmem with rfl | hmem
          · rw [hv] at hp
            cases hp
          · exact Or.inr ⟨hmem, hp⟩
    · have hstep : enumStep process d h = dictInsert d h v := by
        unfold enumStep
        rw [hv]
      have hval : ∀ q ∈ d, q.1 = h → q.2 = v := by
        intro r hr hrk
        have := hc r hr
        rw [hrk, hv] at this
        exact (Option.some_inj.mp this).symm
      rw [hstep, ih (dictInsert d h v) (consistent_dictInsert hc hv) p,
        mem_dictInsert_iff hval p]
      constructor
      · rintro ((hd | hphv) | ⟨hmem, hp⟩)
        · exact Or.inl hd
        · subst hphv
          exact Or.inr ⟨List.mem_cons_self h t, hv⟩
        · exact Or.inr ⟨List.mem_cons_of_mem h hmem, hp⟩
      · rintro (hd | ⟨hmem, hp⟩)
        · exact Or.inl (Or.inl hd)
        · rcases List.mem_cons.mp hmem with hph | hmem
          · refine Or.inl (Or.inr ?_)
            rcases p with ⟨p1, p2⟩
            simp only at hph
            subst hph
            rw [hv] at hp
            rw [Option.some_inj.mp hp]
          · exact Or.inr ⟨hmem, hp⟩

theorem mem_get_all_windows (reg : Registry) (p : Nat × String) :
    p ∈ get_all_windows reg ↔
      p.1 ∈ reg.map Prod.fst ∧ processAll reg p.1 = some p.2 := by
  rw [get_all_windows_eq_fold]
  have hc : Consistent (processAll reg) [] := by
    intro q hq
    cases hq
  simpa using mem_foldl_enumStep (processAll reg) (reg.map Prod.fst) [] hc p

theorem mem_get_all_user_windows (reg : Registry) (p : Nat × String) :
    p ∈ get_all_user_windows reg ↔
      p.1 ∈ reg.map Prod.fst ∧ processUser reg p.1 = some p.2 := by
  rw [get_all_user_windows_eq_fold]
  have hc : Consistent (processUser reg) [] := by
    intro q hq
    cases hq
  simpa using mem_foldl_enumStep (processUser reg) (reg.map Prod.fst) [] hc p

/-! ### Result keys are unique -/

theorem dictInsert_keys_nodup {d : List (Nat × String)} {k : Nat} {v : String}
    (h : (d.map Prod.fst).Nodup) : ((dictInsert d k v).map Prod.fst).Nodup := by
  by_cases hany : d.any (fun p => p.1 == k) = true
  · have hd : dictInsert d k v = d.map (fun p => if p.1 == k then (k, v) else p) := by
      unfold dictInsert
      rw [if_pos hany]
    have hkeys : List.map (Prod.fst ∘ fun p => if p.1 == k then (k, v) else p) d
        = d.map Prod.fst := by
      apply List.map_congr_left
      intro p _
      simp only [Function.comp_apply]
      by_cases hk : p.1 = k <;> simp [hk]
    rw [hd, List.map_map, hkeys]
    exact h
  · have hany' : (d.any fun p => p.1 == k) = false := Bool.eq_false_iff.mpr hany
    have hnk : k ∉ d.map Prod.fst := by
      intro hmem
      rcases List.mem_map.mp hmem with ⟨p, hp, hpk⟩
      have hne : ¬ (p.1 == k) = true := by
        have := List.any_eq_false.mp hany' p hp
        simpa using this
      exact hne (by simpa using hpk)
    have hd : dictInsert d k v = d ++ [(k, v)] := by
      unfold dictInsert
      rw [if_neg hany]
    rw [hd]
    simp [List.nodup_append, hnk, h]

theorem foldl_enumStep_keys_nodup (process : Nat → Option String) :
    ∀ (hs : List Nat) (d : List (Nat × String)), (d.map Prod.fst).Nodup →
      ((hs.foldl (enumStep process) d).map Prod.fst).Nodup := by
  intro hs
  induction hs with
  | nil =>
    intro d hd
    simpa using hd
  | cons h t ih =>
    intro d hd
    simp only [List.foldl_cons]
    apply ih
    unfold enumStep
    rcases process h with _ | v
    · exact hd
    · exact dictInsert_keys_nodup hd

theorem get_all_windows_keys_nodup (reg : Registry) :
    ((get_all_windows reg).map Prod.fst).Nodup := by
  rw [get_all_windows_eq_fold]
  exact foldl_enumStep_keys_nodup (processAll reg) (reg.map Prod.fst) [] (by simp)

/-! ### Resolving handles in the registry -/

theorem findWindow_eq_some {reg : Registry} {hwnd : Nat} {w : Window}
    (hnd : (reg.map Prod.fst).Nodup) (hmem : (hwnd, w) ∈ reg) :
    findWindow reg hwnd = some w := by
  induction reg with
  | nil => cases hmem
  | cons a t ih =>
    rcases List.mem_cons.mp hmem with rfl | hmem'
    · simp [findWindow, List.find?]
    · have hnd2 : (a.1 :: t.map Prod.fst).Nodup := by
        rw [List.map_cons] at hnd
        exact hnd
      have hkey : a.1 ≠ hwnd := by
        intro hk
        have h1 : hwnd ∈ t.map Prod.fst := List.mem_map.mpr ⟨(hwnd, w), hmem', rfl⟩
        have h2 : a.1 ∉ t.map Prod.fst := (List.nodup_cons.mp hnd2).1
        rw [hk] at h2
        exact h2 h1
      have hnd' : (t.map Prod.fst).Nodup := (List.nodup_cons.mp hnd2).2
      have hrec := ih hnd' hmem'
      unfold findWindow at hrec ⊢
      rw [List.find?_cons_of_neg _ (by simpa using hkey)]
      exact hrec

theorem get_title_of_findWindow {reg : Registry} {hwnd : Nat} {w : Window}
    (h : findWindow reg hwnd = some w) :
    get_title_from_hwnd reg hwnd = w.title := by
  unfold get_title_from_hwnd GetWindowTextW GetWindowTextLengthW
  rw [h]
  simp only [Nat.add_sub_cancel]
  have hlen : w.title.length = w.title.data.length := rfl
  rw [hlen, List.take_length]

theorem get_title_stale {reg : Registry} {hwnd : Nat}
    (h : findWindow reg hwnd = none) : get_title_from_hwnd reg hwnd = "" := by
  unfold get_title_from_hwnd GetWindowTextW GetWindowTextLengthW
  rw [h]

theorem isWindowVisible_of_findWindow {reg : Registry} {hwnd : Nat} {w : Window}
    (h : findWindow reg hwnd = some w) : IsWindowVisible reg hwnd = w.visible := by
  unfold IsWindowVisible
  rw [h]

theorem getWindowLongPtrEx_of_findWindow {reg : Registry} {hwnd : Nat} {w : Window}
    (h : findWindow reg hwnd = some w) : GetWindowLongPtrEx reg hwnd = w.exStyle := by
  unfold GetWindowLongPtrEx
  rw [h]

theorem getWindowOwner_of_findWindow {reg : Registry} {hwnd : Nat} {w : Window}
    (h : findWindow reg hwnd = some w) : GetWindowOwner reg hwnd = w.owner := by
  unfold GetWindowOwner
  rw [h]

theorem processAll_of_findWindow {reg : Registry} {hwnd : Nat} {w : Window}
    (h : findWindow reg hwnd = some w) :
    processAll reg hwnd =
      if w.visible = true ∧ w.title ≠ "" then some w.title else none := by
  unfold processAll
  rw [isWindowVisible_of_findWindow h, get_title_of_findWindow h]
  by_cases hv : w.visible = true
  · by_cases ht : w.title = "" <;> simp [hv, ht]
  · simp [hv]

theorem processUser_of_findWindow {reg : Registry} {hwnd : Nat} {w : Window}
    (h : findWindow reg hwnd = some w) :
    processUser reg hwnd =
      if w.visible = true ∧ w.exStyle &&& WS_EX_TOOLWINDOW = 0 ∧ w.owner = 0 ∧
          w.title ≠ ""
      then some w.title else none := by
  unfold processUser
  rw [isWindowVisible_of_findWindow h, getWindowLongPtrEx_of_findWindow h,
    getWindowOwner_of_findWindow h, get_title_of_findWindow h]
  by_cases hv : w.visible = true
  · by_cases hs : w.exStyle &&& WS_EX_TOOLWINDOW = 0
    · by_cases ho : w.owner = 0
      · by_cases ht : w.title = "" <;> simp [hv, hs, ho, ht]
      · simp [hv, hs, ho]
    · simp [hv, hs]
  · simp [hv]

theorem processUser_imp_processAll {reg : Registry} {h : Nat} {t : String}
    (hp : processUser reg h = some t) : processAll reg h = some t := by
  unfold processUser at hp
  unfold processAll
  by_cases hv : IsWindowVisible reg h
  · simp only [hv, not_true_eq_false, if_false, if_true] at hp ⊢
    by_cases hs : GetWindowLongPtrEx reg h &&& WS_EX_TOOLWINDOW ≠ 0
    · simp [hs] at hp
    · simp only [hs, if_false] at hp
      by_cases ho : GetWindowOwner reg h ≠ 0
      · simp [ho] at hp
      · simp only [ho, if_false] at hp
        exact hp
  · simp [hv] at hp

/-! ### Claim C1 -/

/-- C1: for every window in the registry (handles unique, as the OS
guarantees), `get_all_user_windows` includes it, mapped to its title, if and
only if it is visible, its extended style has no tool-window bit, it has no
owner window, and its title is non-empty; windows failing a condition are
merely skipped, the walk covers every registered window. -/
theorem c1_user_enumeration_predicate (reg : Registry) (hwnd : Nat) (w : Window)
    (hnd : (reg.map Prod.fst).Nodup) (hmem : (hwnd, w) ∈ reg) :
    ((hwnd, w.title) ∈ get_all_user_windows reg ↔
      (w.visible = true ∧ w.exStyle &&& WS_EX_TOOLWINDOW = 0 ∧ w.owner = 0 ∧
        w.title ≠ "")) := by
  have hfw := findWindow_eq_some hnd hmem
  have hkey : hwnd ∈ reg.map Prod.fst := List.mem_map.mpr ⟨(hwnd, w), hmem, rfl⟩
  rw [mem_get_all_user_windows, processUser_of_findWindow hfw]
  by_cases hcond : w.visible = true ∧ w.exStyle &&& WS_EX_TOOLWINDOW = 0 ∧
      w.owner = 0 ∧ w.title ≠ ""
  · simp [hcond, hkey]
  · simp [hcond]

/-- Witness for C1 at a concrete one-window registry. -/
theorem c1_witness :
    ((1, (⟨true, 0, 0, "Notepad", 255⟩ : Window).title) ∈
        get_all_user_windows [(1, ⟨true, 0, 0, "Notepad", 255⟩)] ↔
      ((⟨true, 0, 0, "Notepad", 255⟩ : Window).visible = true ∧
        (⟨true, 0, 0, "Notepad", 255⟩ : Window).exStyle &&& WS_EX_TOOLWINDOW = 0 ∧
        (⟨true, 0, 0, "Notepad", 255⟩ : Window).owner = 0 ∧
        (⟨true, 0, 0, "Notepad", 255⟩ : Window).title ≠ "")) :=
  c1_user_enumeration_predicate [(1, ⟨true, 0, 0, "Notepad", 255⟩)] 1
    ⟨true, 0, 0, "Notepad", 255⟩ (by decide) (by decide)

/-! ### Claim C2 -/

/-- C2: for every window in the registry (handles unique),
`get_all_windows` includes it, mapped to its title, if and only if it is
visible and its title is non-empty; moreover the result holds at most one
entry per handle, so there is exactly one entry per window passing the
predicate. -/
theorem c2_all_enumeration_predicate (reg : Registry)
    (hnd : (reg.map Prod.fst).Nodup) :
    ((get_all_windows reg).map Prod.fst).Nodup ∧
      ∀ hwnd w, (hwnd, w) ∈ reg →
        ((hwnd, w.title) ∈ get_all_windows reg ↔
          (w.visible = true ∧ w.title ≠ "")) := by
  refine ⟨get_all_windows_keys_nodup reg, ?_⟩
  intro hwnd w hmem
  have hfw := findWindow_eq_some hnd hmem
  have hkey : hwnd ∈ reg.map Prod.fst := List.mem_map.mpr ⟨(hwnd, w), hmem, rfl⟩
  rw [mem_get_all_windows, processAll_of_findWindow hfw]
  by_cases hcond : w.visible = true ∧ w.title ≠ ""
  · simp [hcond, hkey]
  · simp [hcond]

/-- Witness for C2 at a concrete registry with a visible titled window and an
invisible one. -/
theorem c2_witness :
    (((get_all_windows [(1, ⟨true, 0, 0, "Notepad", 255⟩),
        (2, ⟨false, 0, 0, "Hidden", 255⟩)]).map Prod.fst).Nodup ∧
      ∀ hwnd w, (hwnd, w) ∈ ([(1, ⟨true, 0, 0, "Notepad", 255⟩),
          (2, ⟨false, 0, 0, "Hidden", 255⟩)] : Registry) →
        ((hwnd, w.title) ∈ get_all_windows [(1, ⟨true, 0, 0, "Notepad", 255⟩),
            (2, ⟨false, 0, 0, "Hidden", 255⟩)] ↔
          (w.visible = true ∧ w.title ≠ ""))) :=
  c2_all_enumeration_predicate
    [(1, ⟨true, 0, 0, "Notepad", 255⟩), (2, ⟨false, 0, 0, "Hidden", 255⟩)]
    (by decide)

/-! ### Claim C3 -/

/-- C3: over any registry state, every entry of `get_all_user_windows` is
also an entry of `get_all_windows`: the user-facing result mapping is a
subset of the all-windows result mapping. -/
theorem c3_user_subset_all (reg : Registry) (p : Nat × String)
    (hp : p ∈ get_all_user_windows reg) : p ∈ get_all_windows reg := by
  rw [mem_get_all_user_windows] at hp
  rw [mem_get_all_windows]
  exact ⟨hp.1, processUser_imp_processAll hp.2⟩

/-- Witness for C3: a concrete user-enumeration entry is also in the
all-windows enumeration. -/
theorem c3_witness :
    (1, "Notepad") ∈ get_all_windows [(1, ⟨true, 0, 0, "Notepad", 255⟩)] :=
  c3_user_subset_all [(1, ⟨true, 0, 0, "Notepad", 255⟩)] (1, "Notepad")
    (by decide)

/-! ### Claim C4 -/

/-- C4: a registered window with empty title text is absent from the results
of both enumerations, whatever its visibility, style bits or owner. -/
theorem c4_empty_title_absent (reg : Registry) (hwnd : Nat) (w : Window)
    (hnd : (reg.map Prod.fst).Nodup) (hmem : (hwnd, w) ∈ reg)
    (htitle : w.title = "") (t : String) :
    (hwnd, t) ∉ get_all_windows reg ∧ (hwnd, t) ∉ get_all_user_windows reg := by
  have hfw := findWindow_eq_some hnd hmem
  constructor
  · intro hin
    rw [mem_get_all_windows, processAll_of_findWindow hfw] at hin
    simp [htitle] at hin
  · intro hin
    rw [mem_get_all_user_windows, processUser_of_findWindow hfw] at hin
    simp [htitle] at hin

/-- Witness for C4: a visible untitled window appears in neither result. -/
theorem c4_witness :
    (7, "x") ∉ get_all_windows [(7, ⟨true, 0, 0, "", 255⟩)] ∧
      (7, "x") ∉ get_all_user_windows [(7, ⟨true, 0, 0, "", 255⟩)] :=
  c4_empty_title_absent [(7, ⟨true, 0, 0, "", 255⟩)] 7 ⟨true, 0, 0, "", 255⟩
    (by decide) (by decide) (by decide) "x"

/-! ### Claim C5 -/

/-- C5: the title lookup queries the required length and fills a buffer of
that length plus one; for a stale handle, or a window whose title is empty,
it returns empty text (it is a total function, so no error is raised). -/
theorem c5_title_lookup_sentinel (reg : Registry) (hwnd : Nat) :
    get_title_from_hwnd reg hwnd
        = GetWindowTextW reg hwnd (GetWindowTextLengthW reg hwnd + 1) ∧
      (findWindow reg hwnd = none → get_title_from_hwnd reg hwnd = "") ∧
      (∀ w, findWindow reg hwnd = some w → w.title = "" →
        get_title_from_hwnd reg hwnd = "") := by
  refine ⟨rfl, fun h => get_title_stale h, fun w hw ht => ?_⟩
  rw [get_title_of_findWindow hw, ht]

/-- Witness for C5: looking up a title in an empty registry (every handle
stale) yields empty text. -/
theorem c5_witness : get_title_from_hwnd [] 5 = "" :=
  (c5_title_lookup_sentinel [] 5).2.1 rfl

/-! ### Claim C9 -/

theorem findWindow_map_keyUpdate (g : Window → Window) (reg : Registry)
    (hwnd : Nat) :
    findWindow (reg.map (fun p => if p.1 == hwnd then (p.1, g p.2) else p)) hwnd
      = (findWindow reg hwnd).map g := by
  induction reg with
  | nil => rfl
  | cons a t ih =>
    by_cases ha : a.1 = hwnd
    · have hbeq : (a.1 == hwnd) = true := by simpa using ha
      simp [findWindow, List.find?, hbeq]
    · have hbeq : (a.1 == hwnd) = false := by simpa using ha
      simp only [findWindow] at ih
      simp only [findWindow, List.map_cons, hbeq, Bool.false_eq_true, if_false,
        List.find?, ih]

theorem findWindow_SetWindowLongPtrEx (reg : Registry) (hwnd value : Nat) :
    findWindow (SetWindowLongPtrEx reg hwnd value) hwnd
      = (findWindow reg hwnd).map (fun x => { x with exStyle := value }) :=
  findWindow_map_keyUpdate (fun x => { x with exStyle := value }) reg hwnd

theorem findWindow_SetLayeredWindowAttributes (reg : Registry)
    (hwnd alpha : Nat) :
    findWindow (SetLayeredWindowAttributes reg hwnd alpha) hwnd
      = (findWindow reg hwnd).map (fun x => { x with alpha := alpha % 256 }) :=
  findWindow_map_keyUpdate (fun x => { x with alpha := alpha % 256 }) reg hwnd

/-- C9: `set_window_opacity` changes the extended style of the target window
only by OR-ing in the layered-window bit: every previously set extended-style
bit stays set, and any newly set bit is the layered bit. -/
theorem c9_opacity_only_adds_layered (reg : Registry) (hwnd opacity : Nat)
    (w : Window) (h : findWindow reg hwnd = some w) :
    ∃ w', findWindow (set_window_opacity reg hwnd opacity) hwnd = some w' ∧
      (∀ i, w.exStyle.testBit i = true → w'.exStyle.testBit i = true) ∧
      (∀ i, w'.exStyle.testBit i = true →
        w.exStyle.testBit i = true ∨ (2 : Nat) ^ i = WS_EX_LAYERED) := by
  unfold set_window_opacity
  rw [getWindowLongPtrEx_of_findWindow h]
  have h1 := findWindow_SetWindowLongPtrEx reg hwnd (w.exStyle ||| WS_EX_LAYERED)
  rw [h] at h1
  have h2 := findWindow_SetLayeredWindowAttributes
    (SetWindowLongPtrEx reg hwnd (w.exStyle ||| WS_EX_LAYERED)) hwnd opacity
  rw [h1] at h2
  refine ⟨_, h2, ?_, ?_⟩
  · intro i hbit
    simp only [Option.map_some] at h2 ⊢
    simp [Nat.testBit_or, hbit]
  · intro i hbit
    simp only [Nat.testBit_or, Bool.or_eq_true] at hbit
    rcases hbit with hbit | hbit
    · exact Or.inl hbit
    · right
      have hl : WS_EX_LAYERED = (2 : Nat) ^ 19 := by norm_num [WS_EX_LAYERED]
      rw [hl, Nat.testBit_two_pow] at hbit
      have : 19 = i := by simpa using hbit
      rw [← this, hl]

/-- Witness for C9 at a concrete topmost window. -/
theorem c9_witness :
    ∃ w', findWindow (set_window_opacity [(3, ⟨true, 8, 0, "A", 255⟩)] 3 128) 3
        = some w' ∧
      (∀ i, (⟨true, 8, 0, "A", 255⟩ : Window).exStyle.testBit i = true →
        w'.exStyle.testBit i = true) ∧
      (∀ i, w'.exStyle.testBit i = true →
        (⟨true, 8, 0, "A", 255⟩ : Window).exStyle.testBit i = true ∨
          (2 : Nat) ^ i = WS_EX_LAYERED) :=
  c9_opacity_only_adds_layered [(3, ⟨true, 8, 0, "A", 255⟩)] 3 128
    ⟨true, 8, 0, "A", 255⟩ (by decide)

/-! ### Properties of the backslash split -/

theorem splitBackslash_ne_nil (l : List Char) : splitBackslash l ≠ [] := by
  cases l with
  | nil => simp [splitBackslash]
  | cons c rest =>
    cases h : splitBackslash rest with
    | nil => simp [splitBackslash, h]
    | cons s ss => by_cases hc : c = '\\' <;> simp [splitBackslash, h, hc]

theorem splitBackslash_singleton :
    ∀ {l s : List Char}, splitBackslash l = [s] → s = l := by
  intro l
  induction l with
  | nil =>
    intro s h
    simp [splitBackslash] at h
    exact h
  | cons c rest ih =>
    intro s h
    cases hss : splitBackslash rest with
    | nil => exact absurd hss (splitBackslash_ne_nil rest)
    | cons s1 ss =>
      simp only [splitBackslash, hss] at h
      by_cases hc : c = '\\'
      · simp [hc] at h
      · simp only [hc, if_false] at h
        injection h with hhead htail
        rw [htail] at hss
        rw [← hhead, ih hss]

theorem splitBackslash_no_backslash :
    ∀ {l : List Char}, '\\' ∉ l → splitBackslash l = [l] := by
  intro l
  induction l with
  | nil => intro _; rfl
  | cons c rest ih =>
    intro h
    have hc : ¬ c = '\\' := by
      intro hc
      exact h (by rw [hc]; exact List.mem_cons_self _ _)
    have hrest : '\\' ∉ rest := fun hr => h (List.mem_cons_of_mem c hr)
    simp [splitBackslash, ih hrest, hc]

theorem splitBackslash_getLastD_spec (l : List Char) :
    (∀ c ∈ (splitBackslash l).getLastD [], c ≠ '\\') ∧
      (l = (splitBackslash l).getLastD [] ∨
        ∃ pre, l = pre ++ '\\' :: (splitBackslash l).getLastD []) := by
  induction l with
  | nil =>
    constructor
    · intro c hc
      simp [splitBackslash] at hc
    · left
      rfl
  | cons c rest ih =>
    cases hss : splitBackslash rest with
    | nil => exact absurd hss (splitBackslash_ne_nil rest)
    | cons s ss =>
      rw [hss] at ih
      by_cases hc : c = '\\'
      · have hsplit : splitBackslash (c :: rest) = [] :: s :: ss := by
          simp [splitBackslash, hss, hc]
        rw [hsplit, List.getLastD_cons]
        refine ⟨ih.1, Or.inr ?_⟩
        rcases ih.2 with hrest | ⟨pre, hrest⟩
        · exact ⟨[], by rw [hc, ← hrest]; rfl⟩
        · exact ⟨c :: pre, by rw [hc, hrest]; rfl⟩
      · cases ss with
        | nil =>
          have hsplit : splitBackslash (c :: rest) = [c :: s] := by
            simp [splitBackslash, hss, hc]
          have hs : s = rest := splitBackslash_singleton hss
          rw [hsplit]
          have hlast : ([c :: s] : List (List Char)).getLastD [] = c :: s := rfl
          rw [hlast, hs]
          constructor
          · intro x hx
            rcases List.mem_cons.mp hx with rfl | hx'
            · exact hc
            · have := ih.1
              simp only [List.getLastD_cons, List.getLastD_nil] at this
              exact this x (hs ▸ hx')
          · exact Or.inl rfl
        | cons s2 ss2 =>
          have hsplit : splitBackslash (c :: rest) = (c :: s) :: s2 :: ss2 := by
            simp [splitBackslash, hss, hc]
          have hbs : '\\' ∈ rest := by
            by_contra hno
            have := splitBackslash_no_backslash hno
            rw [hss] at this
            simp at this
          rw [hsplit]
          have hL : ((c :: s) :: s2 :: ss2 : List (List Char)).getLastD []
              = (s :: s2 :: ss2 : List (List Char)).getLastD [] := by
            simp only [List.getLastD_cons]
          rw [hL]
          refine ⟨ih.1, Or.inr ?_⟩
          rcases ih.2 with hrest | ⟨pre, hrest⟩
          · exfalso
            exact (ih.1 '\\' (hrest ▸ hbs)) rfl
          · exact ⟨c :: pre, by rw [hrest]; rfl⟩

/-! ### Claim C6 -/

/-- C6: whenever the process handle cannot be opened (which is also how an
invalid window identifier manifests, via a pid the OS will not open) or the
image-name query fails, `get_process_name_from_hwnd` returns empty text;
being a total function, it raises no error. -/
theorem c6_process_name_failure_empty (os : ProcOS) (hwnd : Nat)
    (h : os.openProcess (os.pidOf hwnd) = 0 ∨
      QueryFullProcessImageNameW os (os.openProcess (os.pidOf hwnd)) 260 = none) :
    (get_process_name_from_hwnd os hwnd).1 = "" := by
  unfold get_process_name_from_hwnd
  rcases h with h0 | hq
  · simp [h0]
  · by_cases h0 : os.openProcess (os.pidOf hwnd) = 0
    · simp [h0]
    · simp [h0, hq]

/-- Witness for C6: an OS that refuses to open any process. -/
theorem c6_witness :
    (get_process_name_from_hwnd
        ⟨fun _ => 42, fun _ => 0, fun _ => none⟩ 11).1 = "" :=
  c6_process_name_failure_empty ⟨fun _ => 42, fun _ => 0, fun _ => none⟩ 11
    (Or.inl rfl)

/-! ### Claim C7 -/

/-- C7: in every process-name lookup the number of handle releases equals the
number of successful handle acquisitions, and that number is `0` exactly when
`OpenProcess` failed and `1` otherwise — the handle, once acquired, is
released exactly once on both the query-success and query-failure paths. -/
theorem c7_handle_release_balance (os : ProcOS) (hwnd : Nat) :
    countReleased (get_process_name_from_hwnd os hwnd).2
        = countAcquired (get_process_name_from_hwnd os hwnd).2 ∧
      countAcquired (get_process_name_from_hwnd os hwnd).2
        = (if os.openProcess (os.pidOf hwnd) = 0 then 0 else 1) := by
  unfold get_process_name_from_hwnd
  by_cases h0 : os.openProcess (os.pidOf hwnd) = 0
  · simp [h0, countAcquired, countReleased, isAcquire, isRelease]
  · rcases hq : QueryFullProcessImageNameW os (os.openProcess (os.pidOf hwnd)) 260
      with _ | fp
    · simp [h0, hq, countAcquired, countReleased, isAcquire, isRelease,
        List.filter]
    · simp [h0, hq, countAcquired, countReleased, isAcquire, isRelease,
        List.filter]

/-! ### Claim C8 -/

/-- C8: on the success path (handle opened, image-name query succeeded) the
returned process name is the component of the full image path after the last
backslash: it contains no backslash, and the path is either the name itself
or some prefix followed by a backslash and the name. -/
theorem c8_process_name_is_basename (os : ProcOS) (hwnd : Nat) (path : String)
    (hopen : os.openProcess (os.pidOf hwnd) ≠ 0)
    (hq : QueryFullProcessImageNameW os (os.openProcess (os.pidOf hwnd)) 260
      = some path) :
    (∀ c ∈ (get_process_name_from_hwnd os hwnd).1.data, c ≠ '\\') ∧
      (path.data = (get_process_name_from_hwnd os hwnd).1.data ∨
        ∃ pre, path.data
          = pre ++ '\\' :: (get_process_name_from_hwnd os hwnd).1.data) := by
  have hres : (get_process_name_from_hwnd os hwnd).1
      = String.mk ((splitBackslash path.data).getLastD []) := by
    unfold get_process_name_from_hwnd
    simp [hopen, hq]
  rw [hres]
  exact splitBackslash_getLastD_spec path.data

/-- Witness for C8 on a concrete path `C:\Windows\notepad.exe`. -/
theorem c8_witness :
    (∀ c ∈ (get_process_name_from_hwnd
        ⟨fun _ => 7, fun _ => 99, fun _ => some ("C:\\Windows\\notepad.exe")⟩
        4).1.data, c ≠ '\\') ∧
      (("C:\\Windows\\notepad.exe" : String).data
          = (get_process_name_from_hwnd
            ⟨fun _ => 7, fun _ => 99, fun _ => some ("C:\\Windows\\notepad.exe")⟩
            4).1.data ∨
        ∃ pre, ("C:\\Windows\\notepad.exe" : String).data
          = pre ++ '\\' :: (get_process_name_from_hwnd
            ⟨fun _ => 7, fun _ => 99, fun _ => some ("C:\\Windows\\notepad.exe")⟩
            4).1.data) :=
  c8_process_name_is_basename
    ⟨fun _ => 7, fun _ => 99, fun _ => some ("C:\\Windows\\notepad.exe")⟩
    4 ("C:\\Windows\\notepad.exe") (by decide) (by decide)

/-! ### Claim C10 -/

/-- C10: the image-name query uses a fixed 260-character buffer, so when the
full image path exceeds 259 characters the query cannot fill the buffer and
fails, and the lookup still returns a string — the empty sentinel — rather
than reading past the buffer or erroring. -/
theorem c10_long_path_yields_empty (os : ProcOS) (hwnd : Nat) (path : String)
    (hopen : os.openProcess (os.pidOf hwnd) ≠ 0)
    (hpath : os.imagePath (os.openProcess (os.pidOf hwnd)) = some path)
    (hlen : 259 < path.length) :
    (get_process_name_from_hwnd os hwnd).1 = "" := by
  have hq : QueryFullProcessImageNameW os (os.openProcess (os.pidOf hwnd)) 260
      = none := by
    unfold QueryFullProcessImageNameW
    rw [hpath]
    have hnl : ¬ path.length < 260 := by omega
    simp [hnl]
  unfold get_process_name_from_hwnd
  simp [hopen, hq]

/-- Witness for C10 with a 300-character image path. -/
theorem c10_witness :
    (get_process_name_from_hwnd
        ⟨fun _ => 1, fun _ => 5,
          fun _ => some (String.mk (List.replicate 300 'a'))⟩ 2).1 = "" :=
  c10_long_path_yields_empty
    ⟨fun _ => 1, fun _ => 5, fun _ => some (String.mk (List.replicate 300 'a'))⟩
    2 (String.mk (List.replicate 300 'a')) (by decide) rfl
    (by
      show 259 < (List.replicate 300 'a').length
      rw [List.length_replicate]
      omega)
